import Mathlib

/-!
Verification of the cache-management core of `ss-interface` (a Node.js
interface over a Redis sorted set, split into a `Server` writer, a `Client`
reader and a `Collection` registry/scheduler).

The backing Redis sorted set is modelled as a list of (score, member)
pairs kept in ascending score order with pairwise-distinct members
(`ZSet`).  Each Redis primitive the repository calls (`zadd`, `zcard`,
`zrange`, `zrangebyscore`, `zremrangebyrank`, `del`) is given an
executable model below, following the documented Redis semantics for
rank normalisation (negative ranks count from the end) and inclusive
score ranges.
-/

/-- A modelled Redis sorted set: (score, member) pairs, ascending by score. -/
abbrev ZSet := List (Int × String)

namespace ZSet

/-- The well-formedness order invariant: scores appear in ascending order. -/
def ScoreSorted (s : ZSet) : Prop :=
  List.Pairwise (fun p q => p.1 ≤ q.1) s

/-- Remove every entry holding the given member (ZADD of an existing member
replaces its score, so insertion first removes the member). -/
def remMember (s : ZSet) (member : String) : ZSet :=
  s.filter (fun p => !(p.2 == member))

/-- Insert a (score, member) pair keeping ascending score order. -/
def insertSorted (s : ZSet) (score : Int) (member : String) : ZSet :=
  match s with
  | [] => [(score, member)]
  | p :: rest =>
    if score < p.1 then (score, member) :: p :: rest
    else p :: insertSorted rest score member

/-- ZADD of a single (score, member) pair: upsert by member. -/
def zaddOne (s : ZSet) (score : Int) (member : String) : ZSet :=
  insertSorted (remMember s member) score member

/-- ZADD of a list of (score, member) pairs, applied left to right. -/
def zadd (s : ZSet) (pairs : List (Int × String)) : ZSet :=
  pairs.foldl (fun acc p => zaddOne acc p.1 p.2) s

/-- ZCARD: cardinality of the sorted set. -/
def zcard (s : ZSet) : Nat := s.length

/-- An upper score bound: a finite score or positive infinity
(the JavaScript code passes `+Infinity` as the end of a range). -/
inductive ScoreBound where
  | fin (b : Int)
  | posInf
deriving DecidableEq, Repr

/-- Whether a score lies below an upper bound (inclusive). -/
def withinUpper (x : Int) : ScoreBound → Bool
  | ScoreBound.fin b => decide (x ≤ b)
  | ScoreBound.posInf => true

/-- ZRANGEBYSCORE with an inclusive lower bound and inclusive upper bound
(possibly infinite); returns members in set order. -/
def zrangebyscore (s : ZSet) (minScore : Int) (maxScore : ScoreBound) : List String :=
  (s.filter (fun p => decide (minScore ≤ p.1) && withinUpper p.1 maxScore)).map Prod.snd

/-- ZRANGE by rank.  Negative ranks count from the end; the selected rank
window is inclusive on both ends and clamped to the set. -/
def zrange (s : ZSet) (start stop : Int) : List String :=
  let n : Int := s.length
  let start1 := if start < 0 then n + start else start
  let stop1 := if stop < 0 then n + stop else stop
  let start2 := max start1 0
  if stop1 < start2 then []
  else ((s.drop start2.toNat).take (stop1 - start2 + 1).toNat).map Prod.snd

/-- ZREMRANGEBYRANK: remove the inclusive rank window, with the same
negative-rank normalisation as ZRANGE. -/
def zremrangebyrank (s : ZSet) (start stop : Int) : ZSet :=
  let n : Int := s.length
  let start1 := if start < 0 then n + start else start
  let stop1 := if stop < 0 then n + stop else stop
  let start2 := max start1 0
  if stop1 < start2 then s
  else s.take start2.toNat ++ s.drop (stop1.toNat + 1)

end ZSet

open ZSet

/-!
## Reader (`lib/client.js`)

`Client` holds a key and a configured `batch_size`.  `Client#get`
(lines 107-131) reads `startIndex = options.id`; with no id it delegates
to `_getLatest` (ZRANGE of the last `batch_size` ranks); with
`options.newer === false` it queries scores in
`[id - batch_size + 1, id]`; otherwise it queries `[id, +Infinity]`.
-/

/-- Configuration of the reader (`Client#_configure`). -/
structure ClientConfig where
  batch_size : Int
deriving Repr

/-- `Client#_getLatest`: the last `batch_size` items by rank. -/
def getLatest (cfg : ClientConfig) (s : ZSet) : List String :=
  zrange s (-cfg.batch_size) (-1)

/-- `Client#get`: point/range read.  `newer` mirrors `options.newer`
(`none` when the option is absent); the backward branch is taken exactly
when `options.newer === false`. -/
def clientGet (cfg : ClientConfig) (s : ZSet) (id : Option Int) (newer : Option Bool) :
    List String :=
  match id with
  | none => getLatest cfg s
  | some startIndex =>
    if newer = some false then
      zrangebyscore s (startIndex - cfg.batch_size + 1) (ScoreBound.fin startIndex)
    else
      zrangebyscore s startIndex ScoreBound.posInf

/-- The store used in the concrete examples: items with ids 1, 2, 8. -/
def sparseStore : ZSet := [(1, "a"), (2, "b"), (8, "c")]

/-- C5 (code bug, evaluation at the failing input): on the store with ids
1, 2, 8, the backward read `get(\x7bnewer: false, id: 8\x7d)` under
`batch_size = 5` issues ZRANGEBYSCORE over the numeric window 4..8 and so
returns only the item with id 8 — a single item, not the three items the
claim (and the repository's own test on non-successive ids, and the
CHANGELOG 0.0.1 fix note) require. -/
theorem c5_sparse_backward_bug :
    clientGet ⟨5⟩ sparseStore (some 8) (some false) = ["c"]
    ∧ (clientGet ⟨5⟩ sparseStore (some 8) (some false)).length = 1
    ∧ clientGet ⟨5⟩ sparseStore (some 8) (some false) ≠ ["a", "b", "c"] :=
  ⟨by decide, by decide, by decide⟩

/-- C6: with direction forward (an id given and `options.newer` not
`false`), `Client#get` returns every item with ordering key at least
`fromId`, independent of the configured `batch_size` (no cap on the
result count), and in ascending score order on a sorted store. -/
theorem c6_forward_uncapped (cfg cfg' : ClientConfig) (s : ZSet) (fromId : Int)
    (newer : Option Bool) (hn : newer ≠ some false) :
    clientGet cfg s (some fromId) newer
      = (s.filter (fun p => decide (fromId ≤ p.1))).map Prod.snd
    ∧ clientGet cfg' s (some fromId) newer = clientGet cfg s (some fromId) newer
    ∧ (ScoreSorted s →
        List.Pairwise (fun p q => p.1 ≤ q.1) (s.filter (fun p => decide (fromId ≤ p.1)))) := by
  have hget : ∀ c : ClientConfig, clientGet c s (some fromId) newer
      = (s.filter (fun p => decide (fromId ≤ p.1))).map Prod.snd := by
    intro c
    show (if newer = some false then _ else zrangebyscore s fromId ScoreBound.posInf) = _
    rw [if_neg hn]
    unfold zrangebyscore
    congr 1
    apply List.filter_congr
    intro p _
    simp [withinUpper]
  refine ⟨hget cfg, (hget cfg').trans (hget cfg).symm, ?_⟩
  intro hs
  exact List.Pairwise.sublist (List.filter_sublist s) hs

/-- Witness for C6: over items with ids 1, 2, 3 and `batch_size = 2`,
the forward read from id 1 returns all three items (more than the batch
size) and agrees with any other configured batch size. -/
theorem c6_forward_uncapped_witness :
    clientGet ⟨2⟩ [(1, "a"), (2, "b"), (3, "c")] (some 1) none = ["a", "b", "c"]
    ∧ clientGet ⟨7⟩ [(1, "a"), (2, "b"), (3, "c")] (some 1) none
        = clientGet ⟨2⟩ [(1, "a"), (2, "b"), (3, "c")] (some 1) none
    ∧ 2 < (clientGet ⟨2⟩ [(1, "a"), (2, "b"), (3, "c")] (some 1) none).length := by
  have h := c6_forward_uncapped ⟨2⟩ ⟨7⟩ [(1, "a"), (2, "b"), (3, "c")] 1 none (by decide)
  exact ⟨by decide, h.2.1, by decide⟩

/-!
## Writer (`lib/server.js`)

`Server#_configure` (lines 60-71) copies `key`, `min_size`, `max_size`
and `stringify` from the configuration onto the instance and nothing
else.  `Server#addOne` (lines 105-123) ZADDs one (id, item) pair;
`Server#add` (lines 137-156) ZADDs a batch and is a callback-only no-op
on an empty array.  Every write completion runs `Server#_reduce` through
`_wrapCallback` (lines 185-194).  The items in the claims below are
already strings, so the configured `stringify` step is the identity and
is not modelled separately.
-/

/-- The configuration the Server constructor receives.  The repository's
test suite and CHANGELOG declare a `uniqueIds` option here. -/
structure ServerRawConfig where
  key : String
  min_size : Nat
  max_size : Option Nat
  uniqueIds : Bool
deriving Repr, DecidableEq

/-- The instance fields `Server#_configure` actually stores: `_key`,
`_minsize` and `_maxsize` (`_stringify` is the identity here).  `none`
for `max_size` models `+Infinity`.  There is no field for `uniqueIds`. -/
structure ServerSettings where
  key : String
  min_size : Nat
  max_size : Option Nat
deriving Repr, DecidableEq

/-- `Server#_configure`: the projection of the received configuration
onto the instance fields. -/
def configure (c : ServerRawConfig) : ServerSettings :=
  { key := c.key, min_size := c.min_size, max_size := c.max_size }

/-- `Server#addOne` on a string item: a plain ZADD of the (id, item)
pair.  No branch consults a uniqueness flag and no pre-removal of other
members at the same id happens. -/
def addOne (s : ZSet) (id : Int) (item : String) : ZSet :=
  zaddOne s id item

/-- C1 (code-bug evaluation): `_configure` drops `uniqueIds` — two
configurations differing only there produce identical instances — and two
`addOne` calls with the same id and distinct serialized values leave TWO
members at that id, not one; the last write does not win. -/
theorem c1_unique_ids_not_enforced :
    (∀ (c : ServerRawConfig) (b₁ b₂ : Bool),
      configure { c with uniqueIds := b₁ } = configure { c with uniqueIds := b₂ })
    ∧ addOne (addOne [] 1 "a") 1 "b" = [(1, "a"), (1, "b")]
    ∧ ((addOne (addOne [] 1 "a") 1 "b").filter (fun p => p.1 == 1)).length = 2 :=
  ⟨fun _ _ _ => rfl, by decide, by decide⟩

/-- Removing the lowest ranks up to `-(m+1)` keeps exactly the final
`m`-element segment of the set (everything when the set has at most `m`
elements). -/
theorem zremrangebyrank_keep_top (s : ZSet) (m : Nat) :
    zremrangebyrank s 0 (-((m : Int) + 1)) = s.drop (s.length - m) := by
  unfold zremrangebyrank
  have h0 : ¬ ((0 : Int) < 0) := by omega
  have hneg : (-((m : Int) + 1)) < 0 := by omega
  simp only [if_neg h0, if_pos hneg]
  have hmax : max (0 : Int) 0 = 0 := by omega
  rw [hmax]
  by_cases hc : (s.length : Int) + -((m : Int) + 1) < 0
  · rw [if_pos hc]
    have : s.length - m = 0 := by omega
    rw [this, List.drop_zero]
  · rw [if_neg hc]
    have ht : (Int.toNat 0) = 0 := rfl
    rw [ht, List.take_zero, List.nil_append]
    congr 1
    omega

/-- One execution of the asynchronous body of `Server#_reduce`
(lines 228-249) in which the ZCARD query is answered by the exact current
cardinality and no other write lands before the removal: skip when
`max_size` is `+Infinity` (lines 224-226); stop when the size is below
`max_size` (lines 234-238); otherwise ZREMRANGEBYRANK 0 -(min_size+1)
(line 242). -/
def reducePass (cfg : ServerSettings) (s : ZSet) : ZSet :=
  match cfg.max_size with
  | none => s
  | some m =>
    if s.length < m then s
    else zremrangebyrank s 0 (-((cfg.min_size : Int) + 1))

/-- C3: for a Writer with bounded `max_size = M` and `min_size ≤ M`, a
reduction pass that observes size at least `M` leaves exactly the
`min_size` items of highest ordering key (the final segment of the
ascending store, each kept score at least each removed score); a pass
that observes size below `M` removes nothing. -/
theorem c3_reduce_to_min_size (cfg : ServerSettings) (M : Nat) (s : ZSet)
    (hM : cfg.max_size = some M) (hm : cfg.min_size ≤ M) :
    (M ≤ s.length →
      reducePass cfg s = s.drop (s.length - cfg.min_size)
      ∧ (reducePass cfg s).length = cfg.min_size
      ∧ (ScoreSorted s → ∀ p ∈ s.take (s.length - cfg.min_size),
          ∀ q ∈ reducePass cfg s, p.1 ≤ q.1))
    ∧ (s.length < M → reducePass cfg s = s) := by
  constructor
  · intro hsz
    have hnlt : ¬ (s.length < M) := by omega
    have hred : reducePass cfg s = s.drop (s.length - cfg.min_size) := by
      unfold reducePass
      rw [hM]
      simp only [if_neg hnlt]
      exact zremrangebyrank_keep_top s cfg.min_size
    refine ⟨hred, ?_, ?_⟩
    · rw [hred, List.length_drop]
      omega
    · intro hs p hp q hq
      rw [hred] at hq
      have hsplit : List.Pairwise (fun p q => p.1 ≤ q.1)
          (s.take (s.length - cfg.min_size) ++ s.drop (s.length - cfg.min_size)) := by
        rw [List.take_append_drop]
        exact hs
      exact (List.pairwise_append.mp hsplit).2.2 p hp q hq
  · intro hsz
    unfold reducePass
    rw [hM]
    simp only [if_pos hsz]

/-- Witness for C3: min_size 1, max_size 2, three items: the pass keeps
exactly the single highest-scored item; with only one item it keeps all. -/
theorem c3_reduce_to_min_size_witness :
    reducePass ⟨"k", 1, some 2⟩ [(1, "a"), (2, "b"), (3, "c")] = [(3, "c")]
    ∧ (reducePass ⟨"k", 1, some 2⟩ [(1, "a"), (2, "b"), (3, "c")]).length = 1
    ∧ reducePass ⟨"k", 1, some 2⟩ [(1, "a")] = [(1, "a")] := by
  have h := c3_reduce_to_min_size ⟨"k", 1, some 2⟩ 2 [(1, "a"), (2, "b"), (3, "c")]
    rfl (by decide)
  have h1 := h.1 (by decide)
  have h2 := (c3_reduce_to_min_size ⟨"k", 1, some 2⟩ 2 [(1, "a")] rfl (by decide)).2
    (by decide)
  exact ⟨h1.1.trans (by decide), h1.2.1, h2⟩

/-!
## Writer event machine

The Node.js client sends all commands for one Writer down a single
connection; redis processes them strictly in send order and replies in
that order.  The machine below models the Writer together with its
in-flight command FIFO: a step either issues a write (the application
calling `addOne`/`add`) or delivers the reply to the oldest in-flight
command, at which point the command's effect on the store and the
synchronous JavaScript callback (`_wrapCallback`, the `getSize`
continuation of `_reduce`, or the removal continuation) are applied.
Each delivery can also fail, taking the callback's error path.
-/

/-- The redis commands the Writer puts in flight. -/
inductive RCmd where
  | zaddCmd (pairs : List (Int × String))
  | zcardCmd
  | zremCmd
deriving Repr, DecidableEq

/-- The commands belonging to a reduction pass. -/
def isReduceCmd : RCmd → Bool
  | RCmd.zaddCmd _ => false
  | RCmd.zcardCmd => true
  | RCmd.zremCmd => true

/-- Number of in-flight reduction commands. -/
def reduceCmdCount (q : List RCmd) : Nat :=
  (q.filter isReduceCmd).length

/-- Writer machine state: the backing sorted set, the `_reducing`
debounce flag, and the FIFO of commands sent but not yet answered. -/
structure WState where
  store : ZSet
  reducing : Bool
  queue : List RCmd
deriving Repr, DecidableEq

/-- The part of `Server#_reduce` (lines 218-228) that runs synchronously
inside `_wrapCallback` when a write completes: return at once if a
reduction is in flight, or if `max_size` is `+Infinity`; otherwise raise
the `_reducing` flag and issue the ZCARD size query. -/
def triggerReduce (cfg : ServerSettings) (s : WState) : WState :=
  if s.reducing then s
  else match cfg.max_size with
    | none => s
    | some _ => { s with reducing := true, queue := s.queue ++ [RCmd.zcardCmd] }

/-- The `getSize` continuation inside `Server#_reduce` (lines 229-249) on
a successful size reply `n`: below `max_size` clear the flag and stop,
otherwise issue ZREMRANGEBYRANK (the flag stays raised).  An unbounded
`max_size` compares as `n < Infinity`, clearing the flag. -/
def onSizeReply (cfg : ServerSettings) (st : WState) (n : Nat) : WState :=
  match cfg.max_size with
  | none => { st with reducing := false }
  | some m =>
    if n < m then { st with reducing := false }
    else { st with queue := st.queue ++ [RCmd.zremCmd] }

/-- One event-loop step of the Writer, indexed by whether the step is an
error-free one (`true`) or the delivery of an error reply (`false`).
`zaddErr` still triggers a reduction because `_wrapCallback` calls
`_reduce()` before inspecting the error; `zcardErr` returns without
touching the `_reducing` flag (line 231-233); `zremErr` ignores the error
and clears the flag (lines 243-246). -/
inductive WStep (cfg : ServerSettings) : Bool → WState → WState → Prop where
  | issueWrite (s : WState) (pairs : List (Int × String)) (hp : pairs ≠ []) :
      WStep cfg true s { s with queue := s.queue ++ [RCmd.zaddCmd pairs] }
  | zaddOk (s : WState) (pairs : List (Int × String)) (rest : List RCmd)
      (h : s.queue = RCmd.zaddCmd pairs :: rest) :
      WStep cfg true s
        (triggerReduce cfg { s with store := zadd s.store pairs, queue := rest })
  | zaddErr (s : WState) (pairs : List (Int × String)) (rest : List RCmd)
      (h : s.queue = RCmd.zaddCmd pairs :: rest) :
      WStep cfg false s (triggerReduce cfg { s with queue := rest })
  | zcardOk (s : WState) (rest : List RCmd) (h : s.queue = RCmd.zcardCmd :: rest) :
      WStep cfg true s (onSizeReply cfg { s with queue := rest } s.store.length)
  | zcardErr (s : WState) (rest : List RCmd) (h : s.queue = RCmd.zcardCmd :: rest) :
      WStep cfg false s { s with queue := rest }
  | zremOk (s : WState) (rest : List RCmd) (h : s.queue = RCmd.zremCmd :: rest) :
      WStep cfg true s
        { s with store := zremrangebyrank s.store 0 (-((cfg.min_size : Int) + 1)),
                 reducing := false, queue := rest }
  | zremErr (s : WState) (rest : List RCmd) (h : s.queue = RCmd.zremCmd :: rest) :
      WStep cfg false s { s with reducing := false, queue := rest }

/-- Reachability through error-free steps only. -/
inductive WReachOk (cfg : ServerSettings) : WState → WState → Prop where
  | refl (s : WState) : WReachOk cfg s s
  | tail {s t u : WState} : WReachOk cfg s t → WStep cfg true t u → WReachOk cfg s u

/-- Reachability through arbitrary steps (error replies allowed). -/
inductive WReachAny (cfg : ServerSettings) : WState → WState → Prop where
  | refl (s : WState) : WReachAny cfg s s
  | tail {s t u : WState} {b : Bool} :
      WReachAny cfg s t → WStep cfg b t u → WReachAny cfg s u

/-- A fresh Writer over an empty key: nothing in flight, flag down. -/
def WInit : WState := { store := [], reducing := false, queue := [] }

/-- The single-flight invariant of error-free executions: exactly one
reduction command is in flight while `_reducing` is raised and none
otherwise, and an idle Writer (empty FIFO) holds fewer than `max_size`
items. -/
def WInv (M : Nat) (s : WState) : Prop :=
  reduceCmdCount s.queue = (if s.reducing then 1 else 0)
  ∧ (s.queue = [] → s.store.length < M)

theorem reduceCmdCount_append (q r : List RCmd) :
    reduceCmdCount (q ++ r) = reduceCmdCount q + reduceCmdCount r := by
  simp [reduceCmdCount, List.filter_append]

theorem triggerReduce_of_reducing (cfg : ServerSettings) (s : WState)
    (h : s.reducing = true) : triggerReduce cfg s = s := by
  unfold triggerReduce
  rw [h]
  simp

theorem triggerReduce_of_idle (cfg : ServerSettings) (M : Nat) (s : WState)
    (hM : cfg.max_size = some M) (h : s.reducing = false) :
    triggerReduce cfg s = { s with reducing := true, queue := s.queue ++ [RCmd.zcardCmd] } := by
  unfold triggerReduce
  rw [h, hM]
  simp

theorem onSizeReply_eq (cfg : ServerSettings) (M : Nat) (hM : cfg.max_size = some M)
    (st : WState) (n : Nat) :
    onSizeReply cfg st n
      = if n < M then { st with reducing := false }
        else { st with queue := st.queue ++ [RCmd.zremCmd] } := by
  unfold onSizeReply
  rw [hM]

/-- Preservation of the single-flight invariant by every error-free step. -/
theorem winv_preserved (cfg : ServerSettings) (M : Nat)
    (hM : cfg.max_size = some M) (hm : cfg.min_size < M)
    {s t : WState} (hstep : WStep cfg true s t) (hinv : WInv M s) : WInv M t := by
  obtain ⟨hcount, hidle⟩ := hinv
  cases hstep with
  | issueWrite s pairs hp =>
    refine ⟨?_, ?_⟩
    · simpa [reduceCmdCount_append, reduceCmdCount, isReduceCmd] using hcount
    · intro hq
      simp at hq
  | zaddOk s pairs rest h =>
    rw [h] at hcount
    have hc : reduceCmdCount rest = (if s.reducing then 1 else 0) := by
      simpa [reduceCmdCount, List.filter_cons, isReduceCmd] using hcount
    cases hrflag : s.reducing with
    | true =>
      rw [hrflag] at hc
      simp only [if_true] at hc
      rw [triggerReduce_of_reducing cfg
        { store := s.store.zadd pairs, reducing := true, queue := rest } rfl]
      refine ⟨by simpa using hc, ?_⟩
      intro hq
      rw [show rest = [] from hq] at hc
      simp [reduceCmdCount] at hc
    | false =>
      simp only at hc
      rw [hrflag] at hc
      simp only [Bool.false_eq_true, if_false] at hc
      rw [triggerReduce_of_idle cfg M
        { store := s.store.zadd pairs, reducing := false, queue := rest } hM rfl]
      refine ⟨?_, ?_⟩
      · simp [reduceCmdCount_append, reduceCmdCount, isReduceCmd] at hc ⊢
        exact hc
      · intro hq
        simp at hq
  | zcardOk s rest h =>
    rw [h] at hcount
    have hc : reduceCmdCount rest + 1 = (if s.reducing then 1 else 0) := by
      simpa [reduceCmdCount, List.filter_cons, isReduceCmd, Nat.add_comm] using hcount
    cases hrflag : s.reducing with
    | false =>
      rw [hrflag] at hc
      simp at hc
    | true =>
      rw [hrflag] at hc
      simp only [if_true] at hc
      have hc0 : reduceCmdCount rest = 0 := by omega
      rw [onSizeReply_eq cfg M hM]
      by_cases hn : s.store.length < M
      · rw [if_pos hn]
        exact ⟨by simpa using hc0, fun _ => hn⟩
      · rw [if_neg hn]
        refine ⟨?_, ?_⟩
        · simp [reduceCmdCount_append, reduceCmdCount, isReduceCmd] at hc0 ⊢
          exact hc0
        · intro hq
          simp at hq
  | zremOk s rest h =>
    rw [h] at hcount
    have hc : reduceCmdCount rest + 1 = (if s.reducing then 1 else 0) := by
      simpa [reduceCmdCount, List.filter_cons, isReduceCmd, Nat.add_comm] using hcount
    cases hrflag : s.reducing with
    | false =>
      rw [hrflag] at hc
      simp at hc
    | true =>
      rw [hrflag] at hc
      simp only [if_true] at hc
      refine ⟨by simpa using (show reduceCmdCount rest = 0 by omega), ?_⟩
      intro hq
      show (zremrangebyrank s.store 0 (-((cfg.min_size : Int) + 1))).length < M
      rw [zremrangebyrank_keep_top, List.length_drop]
      omega

/-- The single-flight invariant holds in every error-free reachable state. -/
theorem winv_reach (cfg : ServerSettings) (M : Nat)
    (hM : cfg.max_size = some M) (hm : cfg.min_size < M)
    {t : WState} (h : WReachOk cfg WInit t) : WInv M t := by
  induction h with
  | refl =>
    refine ⟨by simp [WInit, reduceCmdCount], ?_⟩
    intro _
    show ([] : ZSet).length < M
    simp
    omega
  | tail hreach hstep ih => exact winv_preserved cfg M hM hm hstep ih

/-- C4 (amended: error-free executions): for a Writer with bounded
`max_size = M` and `min_size < M`, along any error-free execution from a
fresh Writer — writes issued at arbitrary points, every reply delivered
in order, each completed write triggering the debounced reduction — every
state with no command in flight (all inserts and reductions settled) has
fewer than `M` items in the store. -/
theorem c4_settled_below_max (cfg : ServerSettings) (M : Nat)
    (hM : cfg.max_size = some M) (hm : cfg.min_size < M)
    {t : WState} (h : WReachOk cfg WInit t) (hq : t.queue = []) :
    t.store.length < M :=
  (winv_reach cfg M hM hm h).2 hq

/-- Witness for C4: insert one item, deliver the write reply (which
triggers the reduction) and the size reply; the settled Writer holds one
item, below the maximum of two. -/
theorem c4_settled_below_max_witness :
    (⟨[(1, "a")], false, []⟩ : WState).store.length < 2 := by
  refine c4_settled_below_max ⟨"k", 1, some 2⟩ 2 rfl (by decide) ?_ rfl
  have h1 : WReachOk ⟨"k", 1, some 2⟩ WInit ⟨[], false, [RCmd.zaddCmd [(1, "a")]]⟩ :=
    WReachOk.tail (WReachOk.refl _) (WStep.issueWrite _ _ (by simp))
  have h2 : WReachOk ⟨"k", 1, some 2⟩ WInit ⟨[(1, "a")], true, [RCmd.zcardCmd]⟩ :=
    WReachOk.tail h1 (WStep.zaddOk _ [(1, "a")] [] rfl)
  exact WReachOk.tail h2 (WStep.zcardOk _ [] rfl)

/-- C4 as stated is refuted once error replies are allowed: insert two
items under max_size 2, min_size 1; the first write's completion triggers
the reduction, whose ZCARD query is answered with an error.  All writes
and the triggered reduction pass have settled (nothing in flight), yet
the store holds 2 items — not fewer than max_size = 2 — and no further
reduction is pending. -/
theorem c4_error_counterexample :
    WReachAny ⟨"k", 1, some 2⟩ WInit ⟨[(1, "a"), (2, "b")], true, []⟩
    ∧ (⟨[(1, "a"), (2, "b")], true, []⟩ : WState).queue = []
    ∧ ¬ ((⟨[(1, "a"), (2, "b")], true, []⟩ : WState).store.length < 2) := by
  refine ⟨?_, rfl, by decide⟩
  have h1 : WReachAny ⟨"k", 1, some 2⟩ WInit ⟨[], false, [RCmd.zaddCmd [(1, "a")]]⟩ :=
    WReachAny.tail (WReachAny.refl _) (WStep.issueWrite _ _ (by simp))
  have h2 : WReachAny ⟨"k", 1, some 2⟩ WInit
      ⟨[], false, [RCmd.zaddCmd [(1, "a")], RCmd.zaddCmd [(2, "b")]]⟩ :=
    WReachAny.tail h1 (WStep.issueWrite _ _ (by simp))
  have h3 : WReachAny ⟨"k", 1, some 2⟩ WInit
      ⟨[(1, "a")], true, [RCmd.zaddCmd [(2, "b")], RCmd.zcardCmd]⟩ :=
    WReachAny.tail h2 (WStep.zaddOk _ [(1, "a")] [RCmd.zaddCmd [(2, "b")]] rfl)
  have h4 : WReachAny ⟨"k", 1, some 2⟩ WInit ⟨[(1, "a"), (2, "b")], true, [RCmd.zcardCmd]⟩ :=
    WReachAny.tail h3 (WStep.zaddOk _ [(2, "b")] [RCmd.zcardCmd] rfl)
  exact WReachAny.tail h4 (WStep.zcardErr _ [] rfl)

/-- A Writer whose `_reducing` flag is raised while no reduction command
is in flight: exactly the state left behind by a failed size query. -/
def StuckReducing (s : WState) : Prop :=
  s.reducing = true ∧ reduceCmdCount s.queue = 0

/-- Being stuck is preserved by every step, error replies included: no
step lowers the flag (the only flag-clearing code paths sit in the size
and removal continuations, which require an in-flight reduction command)
and no step enqueues a reduction command (the trigger short-circuits on
the raised flag). -/
theorem stuck_preserved (cfg : ServerSettings) {b : Bool} {s t : WState}
    (hstep : WStep cfg b s t) (hs : StuckReducing s) : StuckReducing t := by
  obtain ⟨hr, hc⟩ := hs
  cases hstep with
  | issueWrite s pairs hp =>
    exact ⟨hr, by simpa [reduceCmdCount_append, reduceCmdCount, isReduceCmd] using hc⟩
  | zaddOk s pairs rest h =>
    rw [h] at hc
    rw [triggerReduce_of_reducing cfg
      { store := s.store.zadd pairs, reducing := s.reducing, queue := rest } hr]
    exact ⟨hr, by simpa [reduceCmdCount, List.filter_cons, isReduceCmd] using hc⟩
  | zaddErr s pairs rest h =>
    rw [h] at hc
    rw [triggerReduce_of_reducing cfg
      { store := s.store, reducing := s.reducing, queue := rest } hr]
    exact ⟨hr, by simpa [reduceCmdCount, List.filter_cons, isReduceCmd] using hc⟩
  | zcardOk s rest h =>
    rw [h] at hc
    simp [reduceCmdCount, List.filter_cons, isReduceCmd] at hc
  | zcardErr s rest h =>
    rw [h] at hc
    simp [reduceCmdCount, List.filter_cons, isReduceCmd] at hc
  | zremOk s rest h =>
    rw [h] at hc
    simp [reduceCmdCount, List.filter_cons, isReduceCmd] at hc
  | zremErr s rest h =>
    rw [h] at hc
    simp [reduceCmdCount, List.filter_cons, isReduceCmd] at hc

/-- C9: when the ZCARD size query of a reduction pass (the only reduction
command then in flight, by the single-flight invariant) is answered with
an error, the error branch of the `getSize` continuation leaves the
`_reducing` flag raised with nothing in flight; from that state, in every
later state — however many writes are issued and delivered, with or
without errors — the flag is still raised, the reduction trigger is the
identity, and no reduction command is in flight, so no removal is ever
issued and no size reduction ever happens again on this Writer. -/
theorem c9_size_error_starves_reduction (cfg : ServerSettings) (s : WState)
    (rest : List RCmd) (hq : s.queue = RCmd.zcardCmd :: rest) (hr : s.reducing = true)
    (hc : reduceCmdCount rest = 0) {t : WState}
    (h : WReachAny cfg { s with queue := rest } t) :
    WStep cfg false s { s with queue := rest }
    ∧ t.reducing = true
    ∧ triggerReduce cfg t = t
    ∧ t.queue.filter isReduceCmd = [] := by
  have hstuck : StuckReducing t := by
    induction h with
    | refl => exact ⟨hr, hc⟩
    | tail hreach hstep ih => exact stuck_preserved cfg hstep ih
  refine ⟨WStep.zcardErr s rest hq, hstuck.1,
    triggerReduce_of_reducing cfg t hstuck.1, ?_⟩
  have := hstuck.2
  rw [reduceCmdCount] at this
  exact List.length_eq_zero.mp this

/-- Witness for C9: from the stuck state after the failed size query over
two items, issue and deliver a third write; the flag is still raised, the
trigger does nothing, and nothing is in flight. -/
theorem c9_size_error_starves_reduction_witness :
    WStep ⟨"k", 1, some 2⟩ false ⟨[(1, "a"), (2, "b")], true, [RCmd.zcardCmd]⟩
      ⟨[(1, "a"), (2, "b")], true, []⟩
    ∧ (⟨[(1, "a"), (2, "b"), (3, "c")], true, []⟩ : WState).reducing = true
    ∧ triggerReduce ⟨"k", 1, some 2⟩ ⟨[(1, "a"), (2, "b"), (3, "c")], true, []⟩
        = ⟨[(1, "a"), (2, "b"), (3, "c")], true, []⟩
    ∧ (⟨[(1, "a"), (2, "b"), (3, "c")], true, []⟩ : WState).queue.filter isReduceCmd = [] := by
  refine c9_size_error_starves_reduction ⟨"k", 1, some 2⟩
    ⟨[(1, "a"), (2, "b")], true, [RCmd.zcardCmd]⟩ [] rfl rfl rfl ?_
  have h1 : WReachAny ⟨"k", 1, some 2⟩ ⟨[(1, "a"), (2, "b")], true, []⟩
      ⟨[(1, "a"), (2, "b")], true, [RCmd.zaddCmd [(3, "c")]]⟩ :=
    WReachAny.tail (WReachAny.refl _) (WStep.issueWrite _ _ (by simp))
  exact WReachAny.tail h1 (WStep.zaddOk _ [(3, "c")] [] rfl)

/-!
## Collection (`lib/collection.js`)

`Collection` keeps `_caches` (id to (cache, populate) pairs),
`_refreshing`, and sources.  `startRefreshInterval` (lines 187-242)
builds the map `funcs` of wrapped populate functions ONCE, from the
cache ids registered at call time, then `refresh` (lines 226-239) — if
`_refreshing` is not already set — sets it and runs all wrapped
functions through `async.parallel`, whose final callback clears
`_refreshing`.  `async.parallel` fires its final callback either when
every task has called back successfully, or immediately when the first
task calls back with an error (the other tasks keep running, their
later results discarded).  Each wrapped function (lines 204-224) calls
the cache's populate; on error or on a non-array result it settles with
an error; otherwise it purges the cache and bulk-adds the returned
items (`async.series`).  The machine below interleaves these per-cache
tasks arbitrarily; store effects land when the corresponding reply
arrives.  The Writer's own debounced reduction after `add` is modelled
separately by the Writer machine above.
-/

/-- Phase of one cache's task inside a refresh cycle: waiting on its
populate callback; purge in flight (holding the items to insert); add in
flight; settled successfully; settled with a recorded error (covering
both a populate error and a non-array populate result, lines 208-216). -/
inductive TPhase where
  | populating
  | purging (items : List (Int × String))
  | adding (items : List (Int × String))
  | doneOk
  | doneErr
deriving Repr, DecidableEq

/-- Whether a task has called back into `async.parallel`. -/
def TPhase.settled : TPhase → Bool
  | TPhase.doneOk => true
  | TPhase.doneErr => true
  | _ => false

/-- State of one refresh cycle: the per-cache-id stores, the collection's
`_refreshing` flag, the cycle's task list (snapshotted cache ids with
their phases), and whether `async.parallel` has already fired its final
callback. -/
structure CState where
  stores : Nat → ZSet
  refreshing : Bool
  tasks : List (Nat × TPhase)
  finalCalled : Bool

/-- Phase of cache `i`'s task, if `i` belongs to the cycle. -/
def lookupTask (i : Nat) : List (Nat × TPhase) → Option TPhase
  | [] => none
  | t :: ts => if t.1 = i then some t.2 else lookupTask i ts

/-- Replace the phase of cache `i`'s task. -/
def setPhase (i : Nat) (ph : TPhase) (ts : List (Nat × TPhase)) : List (Nat × TPhase) :=
  ts.map (fun t => if t.1 = i then (t.1, ph) else t)

/-- Whether every task of the cycle has settled. -/
def allSettled (ts : List (Nat × TPhase)) : Bool :=
  ts.all (fun t => t.2.settled)

/-- The bookkeeping `async.parallel` runs when a task calls back: the
final callback (which sets `self._refreshing = false`, line 237) fires at
the first error, or when all tasks have settled successfully; it fires at
most once. -/
def afterSettle (s : CState) (isErr : Bool) : CState :=
  if (isErr || allSettled s.tasks) && !s.finalCalled
  then { s with finalCalled := true, refreshing := false }
  else s

/-- `refresh` entering a cycle (lines 227-233): raise `_refreshing` and
start one task per snapshotted cache id, all waiting on their populate
callbacks. -/
def startCycle (stores : Nat → ZSet) (ids : List Nat) : CState :=
  { stores := stores, refreshing := true,
    tasks := ids.map (fun i => (i, TPhase.populating)), finalCalled := false }

/-- One event-loop step of a refresh cycle, indexed by whether it is an
error-free step.  A populate callback delivers items (starting the purge)
or an error / non-array result (settling the task with an error); a purge
reply empties that cache's store and starts the add; an add reply lands
the items; failed purge and add replies settle the task with an error
through the `async.series` callback. -/
inductive CStep : Bool → CState → CState → Prop where
  | populateOk (s : CState) (i : Nat) (items : List (Int × String))
      (h : lookupTask i s.tasks = some TPhase.populating) :
      CStep true s { s with tasks := setPhase i (TPhase.purging items) s.tasks }
  | populateErr (s : CState) (i : Nat)
      (h : lookupTask i s.tasks = some TPhase.populating) :
      CStep false s (afterSettle { s with tasks := setPhase i TPhase.doneErr s.tasks } true)
  | purgeOk (s : CState) (i : Nat) (items : List (Int × String))
      (h : lookupTask i s.tasks = some (TPhase.purging items)) :
      CStep true s { s with stores := Function.update s.stores i [],
                            tasks := setPhase i (TPhase.adding items) s.tasks }
  | purgeErr (s : CState) (i : Nat) (items : List (Int × String))
      (h : lookupTask i s.tasks = some (TPhase.purging items)) :
      CStep false s (afterSettle { s with tasks := setPhase i TPhase.doneErr s.tasks } true)
  | addOk (s : CState) (i : Nat) (items : List (Int × String))
      (h : lookupTask i s.tasks = some (TPhase.adding items)) :
      CStep true s (afterSettle
        { s with stores := Function.update s.stores i (zadd (s.stores i) items),
                 tasks := setPhase i TPhase.doneOk s.tasks } false)
  | addErr (s : CState) (i : Nat) (items : List (Int × String))
      (h : lookupTask i s.tasks = some (TPhase.adding items)) :
      CStep false s (afterSettle { s with tasks := setPhase i TPhase.doneErr s.tasks } true)

/-- Reachability through error-free cycle steps. -/
inductive CReachOk : CState → CState → Prop where
  | refl (s : CState) : CReachOk s s
  | tail {s t u : CState} : CReachOk s t → CStep true t u → CReachOk s u

/-- Reachability through arbitrary cycle steps. -/
inductive CReachAny : CState → CState → Prop where
  | refl (s : CState) : CReachAny s s
  | tail {s t u : CState} {b : Bool} : CReachAny s t → CStep b t u → CReachAny s u

theorem lookupTask_setPhase_self (i : Nat) (ph ph₀ : TPhase) (ts : List (Nat × TPhase))
    (h : lookupTask i ts = some ph₀) :
    lookupTask i (setPhase i ph ts) = some ph := by
  induction ts with
  | nil => simp [lookupTask] at h
  | cons t ts ih =>
    by_cases hti : t.1 = i
    · simp [setPhase, lookupTask, hti]
    · rw [lookupTask, if_neg hti] at h
      simp only [setPhase, List.map_cons, if_neg hti]
      rw [lookupTask, if_neg hti]
      exact ih h

theorem lookupTask_setPhase_other (i j : Nat) (ph : TPhase) (ts : List (Nat × TPhase))
    (hij : j ≠ i) :
    lookupTask j (setPhase i ph ts) = lookupTask j ts := by
  induction ts with
  | nil => rfl
  | cons t ts ih =>
    by_cases hti : t.1 = i
    · have htj : ¬ t.1 = j := by
        rw [hti]
        exact fun hc => hij hc.symm
      simp only [setPhase, List.map_cons, if_pos hti]
      rw [lookupTask, lookupTask, if_neg htj, if_neg htj]
      exact ih
    · simp only [setPhase, List.map_cons, if_neg hti]
      rw [lookupTask, lookupTask]
      by_cases htj : t.1 = j
      · rw [if_pos htj, if_pos htj]
      · rw [if_neg htj, if_neg htj]
        exact ih

theorem setPhase_setPhase (i : Nat) (ph₁ ph₂ : TPhase) (ts : List (Nat × TPhase)) :
    setPhase i ph₂ (setPhase i ph₁ ts) = setPhase i ph₂ ts := by
  induction ts with
  | nil => rfl
  | cons t ts ih =>
    by_cases hti : t.1 = i
    · simp [setPhase, hti] at ih ⊢
      exact ih
    · simp [setPhase, hti] at ih ⊢
      exact ih

theorem setPhase_map_fst (i : Nat) (ph : TPhase) (ts : List (Nat × TPhase)) :
    (setPhase i ph ts).map Prod.fst = ts.map Prod.fst := by
  induction ts with
  | nil => rfl
  | cons t ts ih =>
    by_cases hti : t.1 = i
    · simp [setPhase, hti] at ih ⊢
      exact ih
    · simp [setPhase, hti] at ih ⊢
      exact ih

theorem lookupTask_mem (i : Nat) (ph : TPhase) (ts : List (Nat × TPhase))
    (h : lookupTask i ts = some ph) : i ∈ ts.map Prod.fst := by
  induction ts with
  | nil => simp [lookupTask] at h
  | cons t ts ih =>
    by_cases hti : t.1 = i
    · simp [hti]
    · rw [lookupTask, if_neg hti] at h
      simp [ih h]

theorem afterSettle_tasks (s : CState) (b : Bool) : (afterSettle s b).tasks = s.tasks := by
  unfold afterSettle
  split <;> rfl

theorem afterSettle_stores (s : CState) (b : Bool) : (afterSettle s b).stores = s.stores := by
  unfold afterSettle
  split <;> rfl

theorem unsettled_not_allSettled (i : Nat) (ph : TPhase) (ts : List (Nat × TPhase))
    (h : lookupTask i ts = some ph) (hph : ph.settled = false) :
    allSettled ts = false := by
  induction ts with
  | nil => simp [lookupTask] at h
  | cons t ts ih =>
    by_cases hti : t.1 = i
    · rw [lookupTask, if_pos hti] at h
      have ht2 : t.2 = ph := by injection h
      simp [allSettled, ht2, hph]
    · rw [lookupTask, if_neg hti] at h
      have hts := ih h
      unfold allSettled at hts ⊢
      rw [List.all_cons, hts, Bool.and_false]

/-- The disjunctive cycle invariant of error-free executions: either the
cycle is still underway (`_refreshing` raised, final callback not yet
fired) or everything has settled (final callback fired, flag cleared). -/
def CInv (s : CState) : Prop :=
  (s.refreshing = true ∧ s.finalCalled = false)
  ∨ (allSettled s.tasks = true ∧ s.finalCalled = true ∧ s.refreshing = false)

theorem cinv_preserved {s t : CState} (hstep : CStep true s t) (hinv : CInv s) : CInv t := by
  cases hstep with
  | populateOk s i items h =>
    cases hinv with
    | inl hl => exact Or.inl hl
    | inr hr =>
      rw [unsettled_not_allSettled i TPhase.populating s.tasks h rfl] at hr
      exact absurd hr.1 (by simp)
  | purgeOk s i items h =>
    cases hinv with
    | inl hl => exact Or.inl hl
    | inr hr =>
      rw [unsettled_not_allSettled i (TPhase.purging items) s.tasks h rfl] at hr
      exact absurd hr.1 (by simp)
  | addOk s i items h =>
    cases hinv with
    | inr hr =>
      rw [unsettled_not_allSettled i (TPhase.adding items) s.tasks h rfl] at hr
      exact absurd hr.1 (by simp)
    | inl hl =>
      obtain ⟨hrefr, hfc⟩ := hl
      unfold afterSettle
      cases hall : allSettled (setPhase i TPhase.doneOk s.tasks) with
      | true =>
        simp only [hall, hfc, Bool.or_true, Bool.not_false, Bool.and_true, if_true]
        exact Or.inr ⟨hall, rfl, rfl⟩
      | false =>
        simp only [hall, hfc, Bool.or_false, Bool.false_and, Bool.not_false, Bool.and_true]
        simp only [if_false, Bool.false_eq_true]
        exact Or.inl ⟨hrefr, rfl⟩

theorem cinv_reach (stores0 : Nat → ZSet) (ids : List Nat) {t : CState}
    (h : CReachOk (startCycle stores0 ids) t) : CInv t := by
  induction h with
  | refl => exact Or.inl ⟨rfl, rfl⟩
  | tail hreach hstep ih => exact cinv_preserved hstep ih

/-- C2 (amended): in a refresh cycle in which no per-cache task fails,
`_refreshing` is cleared only once every per-cache populate+purge+add
task has settled; it is never false while any error-free task of the
cycle is still in flight.  (With a failing task, `async.parallel` fires
its final callback at the first error and the flag clears early — see
the counterexample.) -/
theorem c2_error_free_clears_after_all_settle (stores0 : Nat → ZSet) (ids : List Nat)
    {t : CState} (h : CReachOk (startCycle stores0 ids) t)
    (hf : t.refreshing = false) : allSettled t.tasks = true := by
  cases cinv_reach stores0 ids h with
  | inl hl => rw [hl.1] at hf; exact absurd hf (by simp)
  | inr hr => exact hr.1

/-- Witness for C2: a one-cache cycle runs populate, purge and add to
completion; only then is the flag observed false, with the task settled. -/
theorem c2_error_free_clears_after_all_settle_witness :
    allSettled (⟨Function.update (Function.update (fun _ => []) 0 []) 0 (zadd [] [(1, "a")]),
      false, [(0, TPhase.doneOk)], true⟩ : CState).tasks = true := by
  refine c2_error_free_clears_after_all_settle (fun _ => []) [0] ?_ rfl
  have h1 : CReachOk (startCycle (fun _ => []) [0])
      ⟨fun _ => [], true, [(0, TPhase.purging [(1, "a")])], false⟩ :=
    CReachOk.tail (CReachOk.refl _) (CStep.populateOk _ 0 [(1, "a")] rfl)
  have h2 : CReachOk (startCycle (fun _ => []) [0])
      ⟨Function.update (fun _ => []) 0 [], true, [(0, TPhase.adding [(1, "a")])], false⟩ :=
    CReachOk.tail h1 (CStep.purgeOk _ 0 [(1, "a")] rfl)
  exact CReachOk.tail h2
    (CStep.addOk ⟨Function.update (fun _ => []) 0 [], true,
      [(0, TPhase.adding [(1, "a")])], false⟩ 0 [(1, "a")] rfl)

/-- C2 as stated is refuted when a task fails: in a two-cache cycle,
cache 0's populate reports an error; `async.parallel` fires its final
callback immediately and `_refreshing` is cleared while cache 1's task is
still waiting on its populate callback (still in flight). -/
theorem c2_early_clear_counterexample :
    CStep false (startCycle (fun _ => []) [0, 1])
      ⟨fun _ => [], false, [(0, TPhase.doneErr), (1, TPhase.populating)], true⟩
    ∧ (⟨fun _ => [], false, [(0, TPhase.doneErr), (1, TPhase.populating)], true⟩
        : CState).refreshing = false
    ∧ lookupTask 1 [(0, TPhase.doneErr), (1, TPhase.populating)] = some TPhase.populating
    ∧ (TPhase.populating).settled = false := by
  refine ⟨?_, rfl, rfl, rfl⟩
  exact CStep.populateErr (startCycle (fun _ => []) [0, 1]) 0 rfl

/-!
## Source message handling (`Collection#addSource`, lines 139-177)

The "message" handler first consults `self._refreshing` and returns at
once when it is set; only otherwise does it iterate an array payload (or
take the single payload), parse non-object items, call the switch
function and write to the resolved cache.  The model records the
observable actions as an effect list; the payload type of parsed
messages and the parse and switch functions are parameters.
-/

/-- The routing decision returned by the switch function: target cache
id, item id, item data. -/
structure Choice where
  cacheId : Nat
  id : Int
  data : String
deriving Repr, DecidableEq

/-- A source message item: already a structured payload, or raw text
that must be JSON-parsed first. -/
inductive MsgItem (P : Type) where
  | structured (p : P)
  | raw (text : String)
deriving Repr, DecidableEq

/-- The observable actions of the message handler: attempting to parse a
raw item, invoking the switch function, and writing to a cache through
`addOne`. -/
inductive SrcEffect (P : Type) where
  | parseAttempt (text : String)
  | routeCall (p : P)
  | storeWrite (cacheId : Nat) (id : Int) (data : String)
deriving Repr, DecidableEq

/-- Routing of one parsed payload (lines 165-172): call the switch
function; a `null` decision or an unregistered target cache id drops the
item, otherwise the item is written. -/
def routeItem {P : Type} (chooser : P → Option Choice) (registered : List Nat)
    (p : P) : List (SrcEffect P) :=
  SrcEffect.routeCall p ::
    (match chooser p with
     | none => []
     | some det =>
       if det.cacheId ∈ registered
       then [SrcEffect.storeWrite det.cacheId det.id det.data]
       else [])

/-- `putInItem` (lines 157-173): parse non-object items, dropping them
when unparsable, then route. -/
def putInItem {P : Type} (parse : String → Option P) (chooser : P → Option Choice)
    (registered : List Nat) (item : MsgItem P) : List (SrcEffect P) :=
  match item with
  | MsgItem.structured p => routeItem chooser registered p
  | MsgItem.raw text =>
    SrcEffect.parseAttempt text ::
      (match parse text with
       | none => []
       | some p => routeItem chooser registered p)

/-- The "message" event handler (lines 141-155): drop everything while
`_refreshing` is set; otherwise process each item of an array payload, or
the single payload. -/
def handleMessage {P : Type} (parse : String → Option P) (chooser : P → Option Choice)
    (registered : List Nat) (refreshing : Bool)
    (data : List (MsgItem P) ⊕ MsgItem P) : List (SrcEffect P) :=
  if refreshing then []
  else
    match data with
    | Sum.inl items => items.flatMap (putInItem parse chooser registered)
    | Sum.inr item => putInItem parse chooser registered item

/-- C7: whenever the `_refreshing` flag is set at the moment a "message"
event is handled, the handler performs no parse attempt, no routing call
and no store write — the message (single or array payload) is dropped
entirely. -/
theorem c7_refreshing_drops_messages {P : Type} (parse : String → Option P)
    (chooser : P → Option Choice) (registered : List Nat) (refreshing : Bool)
    (data : List (MsgItem P) ⊕ MsgItem P) (hr : refreshing = true) :
    handleMessage parse chooser registered refreshing data = [] := by
  unfold handleMessage
  rw [hr]
  simp

/-- Witness for C7: with the flag set, a routable raw message produces no
effects; the same message with the flag cleared parses, routes and
writes. -/
theorem c7_refreshing_drops_messages_witness :
    handleMessage (fun t => some t.length) (fun n => some ⟨n, 7, "d"⟩) [1] true
      (Sum.inr (MsgItem.raw "x")) = []
    ∧ handleMessage (fun t => some t.length) (fun n => some ⟨n, 7, "d"⟩) [1] false
        (Sum.inr (MsgItem.raw "x"))
      = [SrcEffect.parseAttempt "x", SrcEffect.routeCall 1, SrcEffect.storeWrite 1 7 "d"] := by
  refine ⟨c7_refreshing_drops_messages (fun t => some t.length)
    (fun n => some ⟨n, 7, "d"⟩) [1] true (Sum.inr (MsgItem.raw "x")) rfl, ?_⟩
  decide

/-- C8: failure isolation across caches.  In any cycle state in which
cache `j` has already settled with an error (for example because its
populate callback reported one) and cache `i` is still waiting on its
populate callback, cache i's remaining populate, purge and add steps stay
enabled — none of them inspects any other task — and performing them
settles cache `i` successfully with its store purged and then filled with
exactly the items its populate returned, while cache j's recorded error
is untouched. -/
theorem c8_failure_isolated (s : CState) (i j : Nat) (items : List (Int × String))
    (hij : j ≠ i) (hj : lookupTask j s.tasks = some TPhase.doneErr)
    (hi : lookupTask i s.tasks = some TPhase.populating) :
    CReachAny s (afterSettle
      { s with stores := Function.update s.stores i (zadd [] items),
               tasks := setPhase i TPhase.doneOk s.tasks } false)
    ∧ lookupTask i (setPhase i TPhase.doneOk s.tasks) = some TPhase.doneOk
    ∧ Function.update s.stores i (zadd [] items) i = zadd [] items
    ∧ lookupTask j (setPhase i TPhase.doneOk s.tasks) = some TPhase.doneErr := by
  have hl1 : lookupTask i (setPhase i (TPhase.purging items) s.tasks)
      = some (TPhase.purging items) :=
    lookupTask_setPhase_self i (TPhase.purging items) TPhase.populating s.tasks hi
  have hl2 : lookupTask i (setPhase i (TPhase.adding items)
      (setPhase i (TPhase.purging items) s.tasks)) = some (TPhase.adding items) :=
    lookupTask_setPhase_self i (TPhase.adding items) (TPhase.purging items) _ hl1
  have h1 : CReachAny s { s with tasks := setPhase i (TPhase.purging items) s.tasks } :=
    CReachAny.tail (CReachAny.refl s) (CStep.populateOk s i items hi)
  have h2 : CReachAny s
      { s with stores := Function.update s.stores i [],
               tasks := setPhase i (TPhase.adding items)
                          (setPhase i (TPhase.purging items) s.tasks) } :=
    CReachAny.tail h1 (CStep.purgeOk _ i items hl1)
  have h3 : CReachAny s (afterSettle
      { s with
        stores := Function.update (Function.update s.stores i []) i
          (zadd (Function.update s.stores i [] i) items),
        tasks := setPhase i TPhase.doneOk
          (setPhase i (TPhase.adding items)
            (setPhase i (TPhase.purging items) s.tasks)) } false) :=
    CReachAny.tail h2 (CStep.addOk _ i items hl2)
  rw [Function.update_same, Function.update_idem, setPhase_setPhase, setPhase_setPhase] at h3
  refine ⟨h3, lookupTask_setPhase_self i TPhase.doneOk TPhase.populating s.tasks hi,
    Function.update_same i (zadd [] items) s.stores, ?_⟩
  rw [lookupTask_setPhase_other i j TPhase.doneOk s.tasks hij]
  exact hj

/-- Witness for C8: in a two-cache cycle where cache 0 has failed and the
flag has already been cleared, cache 1 still completes and ends up
holding exactly its repopulated item. -/
theorem c8_failure_isolated_witness :
    CReachAny ⟨fun _ => [], false, [(0, TPhase.doneErr), (1, TPhase.populating)], true⟩
      (afterSettle
        ⟨Function.update (fun _ => []) 1 (zadd [] [(5, "x")]), false,
          setPhase 1 TPhase.doneOk [(0, TPhase.doneErr), (1, TPhase.populating)], true⟩ false)
    ∧ lookupTask 1 (setPhase 1 TPhase.doneOk
        [(0, TPhase.doneErr), (1, TPhase.populating)]) = some TPhase.doneOk
    ∧ Function.update (fun _ => ([] : ZSet)) 1 (zadd [] [(5, "x")]) 1 = zadd [] [(5, "x")]
    ∧ lookupTask 0 (setPhase 1 TPhase.doneOk
        [(0, TPhase.doneErr), (1, TPhase.populating)]) = some TPhase.doneErr :=
  c8_failure_isolated
    ⟨fun _ => [], false, [(0, TPhase.doneErr), (1, TPhase.populating)], true⟩
    1 0 [(5, "x")] (by decide) rfl rfl

/-- Frame property of a single cycle step: the set of task ids never
changes, and the store of any cache id outside the task list is never
touched. -/
theorem cstep_frame {b : Bool} {s t : CState} (h : CStep b s t) :
    t.tasks.map Prod.fst = s.tasks.map Prod.fst
    ∧ ∀ j, j ∉ s.tasks.map Prod.fst → t.stores j = s.stores j := by
  cases h with
  | populateOk s i items h =>
    exact ⟨setPhase_map_fst i (TPhase.purging items) s.tasks, fun j _ => rfl⟩
  | populateErr s i h =>
    refine ⟨?_, ?_⟩
    · rw [afterSettle_tasks]
      exact setPhase_map_fst i TPhase.doneErr s.tasks
    · intro j _
      rw [afterSettle_stores]
  | purgeOk s i items h =>
    refine ⟨setPhase_map_fst i (TPhase.adding items) s.tasks, ?_⟩
    intro j hju
    have hji : j ≠ i := fun hc => hju (hc ▸ lookupTask_mem i (TPhase.purging items) s.tasks h)
    exact Function.update_noteq hji [] s.stores
  | purgeErr s i items h =>
    refine ⟨?_, ?_⟩
    · rw [afterSettle_tasks]
      exact setPhase_map_fst i TPhase.doneErr s.tasks
    · intro j _
      rw [afterSettle_stores]
  | addOk s i items h =>
    refine ⟨?_, ?_⟩
    · rw [afterSettle_tasks]
      exact setPhase_map_fst i TPhase.doneOk s.tasks
    · intro j hju
      have hji : j ≠ i := fun hc => hju (hc ▸ lookupTask_mem i (TPhase.adding items) s.tasks h)
      rw [afterSettle_stores]
      exact Function.update_noteq hji _ s.stores
  | addErr s i items h =>
    refine ⟨?_, ?_⟩
    · rw [afterSettle_tasks]
      exact setPhase_map_fst i TPhase.doneErr s.tasks
    · intro j _
      rw [afterSettle_stores]

/-- C10: the set of caches a running refresh interval refreshes is the
snapshot of registry keys taken when `startRefreshInterval` built its
`funcs` map (lines 193-197).  A cache id outside that snapshot — in
particular one registered through `addCache` only after
`startRefreshInterval` returned — is never made a task of any cycle of
that interval and its store is left unchanged by every reachable state of
the cycle, errors included. -/
theorem c10_snapshot_frames_refresh (stores0 : Nat → ZSet) (ids : List Nat) (j : Nat)
    (hj : j ∉ ids) {t : CState} (h : CReachAny (startCycle stores0 ids) t) :
    t.stores j = stores0 j ∧ j ∉ t.tasks.map Prod.fst := by
  have hids : (startCycle stores0 ids).tasks.map Prod.fst = ids := by
    show (ids.map (fun i => (i, TPhase.populating))).map Prod.fst = ids
    rw [List.map_map]
    exact List.map_id ids
  have key : t.tasks.map Prod.fst = ids ∧ t.stores j = stores0 j := by
    induction h with
    | refl => exact ⟨hids, rfl⟩
    | tail hreach hstep ih =>
      obtain ⟨hmap, hst⟩ := ih
      obtain ⟨hmap', hfr⟩ := cstep_frame hstep
      refine ⟨hmap.symm ▸ hmap', ?_⟩
      rw [hfr j (by rw [hmap]; exact hj), hst]
  exact ⟨key.2, key.1 ▸ hj⟩

/-- Witness for C10: a one-cache cycle over cache 0 runs its populate and
purge; cache 5 (registered only later) keeps its store and never becomes
a task. -/
theorem c10_snapshot_frames_refresh_witness :
    (⟨Function.update (fun _ => [(9, "z")]) 0 [], true,
        [(0, TPhase.adding [(1, "a")])], false⟩ : CState).stores 5 = (fun _ => [(9, "z")]) 5
    ∧ 5 ∉ ([(0, TPhase.adding [(1, "a")])] : List (Nat × TPhase)).map Prod.fst := by
  refine c10_snapshot_frames_refresh (fun _ => [(9, "z")]) [0] 5 (by decide) ?_
  have h1 : CReachAny (startCycle (fun _ => [(9, "z")]) [0])
      ⟨fun _ => [(9, "z")], true, [(0, TPhase.purging [(1, "a")])], false⟩ :=
    CReachAny.tail (CReachAny.refl _) (CStep.populateOk _ 0 [(1, "a")] rfl)
  exact CReachAny.tail h1 (CStep.purgeOk _ 0 [(1, "a")] rfl)
